import Mathlib

set_option maxRecDepth 40000

/-!
Verification of the dataserv-client shard builder (`dataserv_client/builder.py`).

The file-system store is modelled as a partial map from paths to byte lists.
SHA-256 (from `hashlib`) and the RandomIO pseudo-random generator are external
primitives, modelled as parameters bundled in `Env`: `Env.hashStr s` stands for
`hashlib.sha256(s.encode('utf-8')).hexdigest()`, `Env.hashBytes c` for
`hashlib.sha256(bytes c).hexdigest()`, and `Env.randomIO seed n` for the `n`
bytes that `RandomIO.RandomIO(seed).genfile(n, path)` writes to `path`.
-/

/-- File contents: a list of bytes. -/
abbrev Bytes := List Nat

/-- The file system under the store path: a partial map from paths to contents. -/
abbrev Store := String → Option Bytes

/-- External hashing and pseudo-random primitives used by `builder.py`. -/
structure Env where
  hashStr : String → String
  hashBytes : Bytes → String
  randomIO : String → Nat → Bytes

/-- Write a file. -/
def setFile (st : Store) (p : String) (c : Bytes) : Store :=
  fun q => if q = p then some c else st q

/-- `os.remove`. -/
def delFile (st : Store) (p : String) : Store :=
  fun q => if q = p then none else st q

/-- Number of binary digits of `n` (fuel-based so that it evaluates in the kernel). -/
def nbitsAux : Nat → Nat → Nat
  | 0, _ => 0
  | fuel+1, n => if n = 0 then 0 else nbitsAux fuel (n / 2) + 1

/-- Number of binary digits of `n`: `0` for `0`, `floor(log2 n) + 1` otherwise. -/
def nbits (n : Nat) : Nat := nbitsAux n n

/-- Python 3 `int(a / b)` on non-negative integers: `a / b` is the true quotient
correctly rounded to the nearest IEEE-754 binary64 value (ties to even), and `int`
truncates toward zero.  The binary64 exponent range is not modelled (the overflow
raised by CPython for quotients at or beyond `2^1024` is outside this model's use).
The significand is the top 53 bits of the scaled quotient, rounded to nearest with
ties to even on the exact remainder. -/
def py3_int_truediv (a b : Nat) : Nat :=
  if a = 0 ∨ b = 0 then 0 else
  let s := nbits b + 54
  let N := a <<< s
  let Q := N / b
  let k := nbits Q - 53
  let m0 := Q >>> k
  let R := N - m0 * (b <<< k)
  let m := if 2 * R > b <<< k ∨ (2 * R = b <<< k ∧ m0 % 2 = 1) then m0 + 1 else m0
  (m <<< k) >>> s

/-- The builder configuration (`Builder.__init__`).  The derived `target_height`
is a separate definition below. -/
structure Builder where
  address : String
  shard_size : Nat
  max_size : Nat
  min_free_size : Nat
  use_folder_tree : Bool

/-- `self.target_height = int(max_size / shard_size)` (`builder.py:30`), with
Python 3 semantics for `/` on integers (true division through binary64). -/
def Builder.target_height (b : Builder) : Nat :=
  py3_int_truediv b.max_size b.shard_size

/-- `Builder.sha256`: hex digest of SHA-256 of the utf-8 encoding of `content`. -/
def Builder.sha256 (e : Env) (content : String) : String := e.hashStr content

/-- The accumulation loop of `Builder._build_all_seeds`: starting from `seed`,
repeatedly apply the hash, collecting `height + 1` values. -/
def seedLoop (e : Env) (seed : String) : Nat → List String
  | 0 => [seed]
  | h+1 => seed :: seedLoop e (e.hashStr seed) h

/-- `Builder._build_all_seeds` (`builder.py:44-51`): the seeds for heights
`0 .. height`, starting from the hash of the address. -/
def Builder._build_all_seeds (e : Env) (b : Builder) (height : Nat) : List String :=
  seedLoop e (Builder.sha256 e b.address) height

/-- `Builder.build_seeds` (`builder.py:53-55`): the first `height` seeds. -/
def Builder.build_seeds (e : Env) (b : Builder) (height : Nat) : List String :=
  (Builder._build_all_seeds e b height).take height

/-- `Builder.build_seed` (`builder.py:57-59`): `_build_all_seeds(height).pop()`,
the last of the `height + 1` seeds. -/
def Builder.build_seed (e : Env) (b : Builder) (height : Nat) : String :=
  (Builder._build_all_seeds e b height).getLastD ""

/-- The seed at height `i`: `i` iterated hashes applied to the hash of the address. -/
def hashChain (e : Env) (b : Builder) (i : Nat) : String :=
  (fun s => e.hashStr s)^[i] (Builder.sha256 e b.address)

theorem seedLoop_eq_map (e : Env) :
    ∀ (h : Nat) (s : String),
      seedLoop e s h = (List.range (h + 1)).map (fun i => (fun t => e.hashStr t)^[i] s) := by
  intro h
  induction h with
  | zero => intro s; simp [seedLoop]
  | succ h ih =>
    intro s
    rw [seedLoop, List.range_succ_eq_map, List.map_cons, ih (e.hashStr s),
      List.map_map]
    refine congrArg₂ _ rfl (congrArg₂ _ ?_ rfl)
    funext i
    simp [Function.comp, Function.iterate_succ_apply]

theorem seedLoop_getLastD (e : Env) :
    ∀ (h : Nat) (s d : String),
      (seedLoop e s h).getLastD d = (fun t => e.hashStr t)^[h] s := by
  intro h
  induction h with
  | zero => intro s d; simp [seedLoop]
  | succ h ih =>
    intro s d
    rw [seedLoop, List.getLastD_cons, ih (e.hashStr s) s,
      Function.iterate_succ_apply]

theorem build_seeds_eq_map (e : Env) (b : Builder) (n : Nat) :
    Builder.build_seeds e b n = (List.range n).map (hashChain e b) := by
  unfold Builder.build_seeds Builder._build_all_seeds
  rw [seedLoop_eq_map, ← List.map_take, List.take_range, Nat.min_eq_left (Nat.le_succ n)]
  rfl

theorem build_seed_eq_chain (e : Env) (b : Builder) (h : Nat) :
    Builder.build_seed e b h = hashChain e b h := by
  unfold Builder.build_seed Builder._build_all_seeds
  rw [seedLoop_getLastD]
  rfl

theorem build_seeds_getD (e : Env) (b : Builder) {n i : Nat} (h : i < n) :
    (Builder.build_seeds e b n).getD i "" = hashChain e b i := by
  rw [build_seeds_eq_map, List.getD_eq_getElem?_getD, List.getElem?_map,
    List.getElem?_range h]
  rfl

theorem build_seeds_length (e : Env) (b : Builder) (n : Nat) :
    (Builder.build_seeds e b n).length = n := by
  rw [build_seeds_eq_map]; simp

/-- Claim C7: for every address and heights `n ≤ m`, `build_seeds n` is a prefix of
`build_seeds m` (here: it equals the first `n` elements of `build_seeds m`); the
sequence is a deterministic function of the address alone (builders with equal
addresses produce equal sequences), with element `0` equal to the SHA-256 of the
address and element `i + 1` obtained by hashing element `i`. -/
theorem build_seeds_deterministic_chain (e : Env) (b b' : Builder) (n m i : Nat)
    (hnm : n ≤ m) (haddr : b.address = b'.address) :
    Builder.build_seeds e b n = (Builder.build_seeds e b m).take n ∧
    Builder.build_seeds e b n = Builder.build_seeds e b' n ∧
    (0 < n → (Builder.build_seeds e b n).getD 0 "" = Builder.sha256 e b.address) ∧
    (i + 1 < n → (Builder.build_seeds e b n).getD (i + 1) "" =
      e.hashStr ((Builder.build_seeds e b n).getD i "")) := by
  refine ⟨?_, ?_, ?_, ?_⟩
  · rw [build_seeds_eq_map, build_seeds_eq_map, ← List.map_take, List.take_range,
      Nat.min_eq_left hnm]
  · unfold Builder.build_seeds Builder._build_all_seeds Builder.sha256
    rw [haddr]
  · intro hn
    rw [build_seeds_getD e b hn]
    rfl
  · intro hi
    rw [build_seeds_getD e b hi, build_seeds_getD e b (Nat.lt_of_succ_lt hi)]
    simp [hashChain, Function.iterate_succ_apply']

/-- Witness for C7 at a concrete input. -/
theorem build_seeds_deterministic_chain_witness :
    (Builder.build_seeds ⟨fun s => s ++ "x", fun _ => "b", fun _ n => List.replicate n 0⟩
        ⟨"a", 1, 2, 0, false⟩ 2 =
      (Builder.build_seeds ⟨fun s => s ++ "x", fun _ => "b", fun _ n => List.replicate n 0⟩
        ⟨"a", 1, 2, 0, false⟩ 3).take 2) ∧
    (Builder.build_seeds ⟨fun s => s ++ "x", fun _ => "b", fun _ n => List.replicate n 0⟩
        ⟨"a", 1, 2, 0, false⟩ 2 =
      Builder.build_seeds ⟨fun s => s ++ "x", fun _ => "b", fun _ n => List.replicate n 0⟩
        ⟨"a", 7, 9, 3, true⟩ 2) ∧
    (0 < 2 → (Builder.build_seeds ⟨fun s => s ++ "x", fun _ => "b", fun _ n => List.replicate n 0⟩
        ⟨"a", 1, 2, 0, false⟩ 2).getD 0 "" =
      Builder.sha256 ⟨fun s => s ++ "x", fun _ => "b", fun _ n => List.replicate n 0⟩ "a") ∧
    (0 + 1 < 2 → (Builder.build_seeds ⟨fun s => s ++ "x", fun _ => "b", fun _ n => List.replicate n 0⟩
        ⟨"a", 1, 2, 0, false⟩ 2).getD (0 + 1) "" =
      ((Builder.build_seeds ⟨fun s => s ++ "x", fun _ => "b", fun _ n => List.replicate n 0⟩
        ⟨"a", 1, 2, 0, false⟩ 2).getD 0 "") ++ "x") :=
  build_seeds_deterministic_chain _ _ ⟨"a", 7, 9, 3, true⟩ 2 3 0
    (by decide) (by decide)

/-- Claim C10: for `h < n`, the single-seed derivation `build_seed h` equals element
`h` of the sequence derivation `build_seeds n`. -/
theorem build_seed_agrees_with_build_seeds (e : Env) (b : Builder) (h n : Nat)
    (hn : h < n) :
    Builder.build_seed e b h = (Builder.build_seeds e b n).getD h "" := by
  rw [build_seed_eq_chain, build_seeds_getD e b hn]

/-- Witness for C10 at a concrete input. -/
theorem build_seed_agrees_with_build_seeds_witness :
    Builder.build_seed ⟨fun s => s ++ "x", fun _ => "b", fun _ n => List.replicate n 0⟩
        ⟨"a", 1, 2, 0, false⟩ 1 =
      (Builder.build_seeds ⟨fun s => s ++ "x", fun _ => "b", fun _ n => List.replicate n 0⟩
        ⟨"a", 1, 2, 0, false⟩ 3).getD 1 "" :=
  build_seed_agrees_with_build_seeds _ _ 1 3 (by decide)

/-- POSIX `os.path.join` on relative components: interpose `/`.  (The source joins
the store path, optional seed-chunk folders and the seed file name, all relative.) -/
def osJoin : List String → String
  | [] => ""
  | [p] => p
  | p :: q :: rest => p ++ "/" ++ osJoin (q :: rest)

/-- Modelled from the spec: `control.util.chunks` (the `dataserv_client.control`
module is not among the sources); per the spec it splits a string into fixed-size
chunks, the last chunk holding the remainder.  Fuel-based recursion over the
character list; `chunks` supplies fuel `≥` the length. -/
def chunksAux (size : Nat) : Nat → List Char → List (List Char)
  | _, [] => []
  | 0, _ :: _ => []
  | fuel+1, c :: rest => ((c :: rest).take size) :: chunksAux size fuel (rest.drop (size - 1))

/-- Modelled from the spec: split `s` into `size`-character chunks. -/
def chunks (s : String) (size : Nat) : List String :=
  (chunksAux size s.toList.length s.toList).map String.mk

/-- `Builder._get_shard_path` (`builder.py:61-67`): under the folder-tree layout the
path is the store path, then `os.path.join(*chunks(seed, 3))`, then the seed itself
as file name; otherwise the seed directly under the store path.  (Directory creation
has no observable effect in this model.) -/
def Builder._get_shard_path (b : Builder) (store_path seed : String) : String :=
  if b.use_folder_tree then
    osJoin [store_path, osJoin (chunks seed 3), seed]
  else
    osJoin [store_path, seed]

/-- The shard path as claim C9 states it: the fixed-size 3-character chunks of the
seed are used as nested directory names with the final chunk (or remaining seed)
serving as the file name — i.e. the path components are the store path followed by
exactly the chunks. -/
def specShardPath (store_path seed : String) : String :=
  osJoin (store_path :: chunks seed 3)

theorem osJoin_cons (a : String) (l : List String) (hl : l ≠ []) :
    osJoin (a :: l) = a ++ "/" ++ osJoin l := by
  cases l with
  | nil => exact absurd rfl hl
  | cons q rest => rfl

theorem osJoin_append_singleton (l : List String) (a : String) (hl : l ≠ []) :
    osJoin (l ++ [a]) = osJoin l ++ "/" ++ a := by
  induction l with
  | nil => exact absurd rfl hl
  | cons p rest ih =>
    cases rest with
    | nil => rfl
    | cons q t =>
      rw [List.cons_append, osJoin_cons p ((q :: t) ++ [a]) (by simp),
        osJoin_cons p (q :: t) (by simp), ih (by simp)]
      simp [String.append_assoc]

/-- Counterexample to claim C9 as stated: with the folder-tree layout enabled, for
the seed `"abcdef"` the code's shard path keeps the full seed as the file name below
all the chunk directories (`sp/abc/def/abcdef`), whereas a path whose final
component is the final chunk (or remaining seed) would be `sp/abc/def`. -/
theorem shard_path_final_chunk_counterexample :
    Builder._get_shard_path ⟨"a", 1, 2, 0, true⟩ "sp" "abcdef" = "sp/abc/def/abcdef" ∧
    specShardPath "sp" "abcdef" = "sp/abc/def" ∧
    Builder._get_shard_path ⟨"a", 1, 2, 0, true⟩ "sp" "abcdef" ≠
      specShardPath "sp" "abcdef" := by
  refine ⟨by decide, by decide, by decide⟩

/-- Claim C9 as amended: with the folder-tree layout enabled and a non-empty seed,
the shard path is the store path followed by every fixed-size 3-character chunk of
the seed as nested directory names, with the full seed (not the final chunk) as the
file name beneath them. -/
theorem shard_path_tree_layout (b : Builder) (store_path seed : String)
    (htree : b.use_folder_tree = true) (hseed : chunks seed 3 ≠ []) :
    Builder._get_shard_path b store_path seed =
      osJoin (store_path :: (chunks seed 3 ++ [seed])) := by
  unfold Builder._get_shard_path
  rw [htree, if_pos rfl, osJoin_cons store_path (chunks seed 3 ++ [seed]) (by simp),
    osJoin_append_singleton (chunks seed 3) seed hseed]
  rfl

/-- Witness for the amended C9 at a concrete input. -/
theorem shard_path_tree_layout_witness :
    Builder._get_shard_path ⟨"a", 1, 2, 0, true⟩ "sp" "abcd" =
      osJoin ("sp" :: (chunks "abcd" 3 ++ ["abcd"])) :=
  shard_path_tree_layout ⟨"a", 1, 2, 0, true⟩ "sp" "abcd" (by decide) (by decide)

/-- Claim C8 (code bug): `Builder.__init__` computes `int(max_size / shard_size)`
where Python 3 `/` is true division through binary64; for `max_size = 2^53 + 1` and
`shard_size = 1` this yields `2^53`, while the exact mathematical floor is
`2^53 + 1`. -/
theorem target_height_float_division_bug :
    Builder.target_height ⟨"a", 1, 2 ^ 53 + 1, 0, false⟩ = 2 ^ 53 ∧
    (2 ^ 53 + 1) / 1 = 2 ^ 53 + 1 ∧
    Builder.target_height ⟨"a", 1, 2 ^ 53 + 1, 0, false⟩ ≠ (2 ^ 53 + 1) / 1 := by
  refine ⟨by decide, by decide, by decide⟩

/-- `Builder.generate_shard` (`builder.py:69-98`): write the `shard_size` RandomIO
bytes for `seed` at the shard path, hash the file read back, delete it when
`cleanup`; returns the new store and the hash.  (The transient-IOError retry
rewrites the same bytes and is invisible in this functional model.) -/
def Builder.generate_shard (e : Env) (b : Builder) (seed store_path : String)
    (cleanup : Bool) (st : Store) : Store × String :=
  let path := Builder._get_shard_path b store_path seed
  let st1 := setFile st path (e.randomIO seed b.shard_size)
  let file_hash := e.hashBytes ((st1 path).getD [])
  (if cleanup then delFile st1 path else st1, file_hash)

/-- `bisect.bisect_left` from the Python standard library, specialised to the
comparison used in `filter_to_resume_point`: `a[mid] < x` evaluates
`HackedCompareObject.__gt__(x, a[mid])` — the reflected operator has priority
because `type(x)` subclasses `str` — i.e. the predicate `pred mid`.  While
`lo < hi`, probe `mid = (lo + hi) / 2`; on `pred mid` continue in `(mid, hi]`,
otherwise in `[lo, mid]`.  Fuel-based; `bisectLeft` supplies fuel `hi - lo`,
which the invariant below shows is enough. -/
def bisectLeftAux (pred : Nat → Bool) : Nat → Nat → Nat → Nat
  | 0, lo, _ => lo
  | fuel+1, lo, hi =>
    if lo < hi then
      let mid := (lo + hi) / 2
      if pred mid then bisectLeftAux pred fuel (mid + 1) hi
      else bisectLeftAux pred fuel lo mid
    else lo

/-- `bisect.bisect_left(seeds, x)` with default bounds `0`, `len(seeds)`. -/
def bisectLeft (pred : Nat → Bool) (lo hi : Nat) : Nat :=
  bisectLeftAux pred (hi - lo) lo hi

/-- `Builder.filter_to_resume_point` (`builder.py:100-117`): binary search over the
seed list with "a shard file exists at this seed's path" as the predicate. -/
def Builder.filter_to_resume_point (b : Builder) (store_path : String) (st : Store)
    (enum_seeds : List (Nat × String)) : Nat :=
  let seeds := enum_seeds.map Prod.snd
  bisectLeft
    (fun i => (st (Builder._get_shard_path b store_path (seeds.getD i ""))).isSome)
    0 seeds.length

/-- Python `dict` assignment `d[k] = v` on an association list: overwrite the
existing binding, or append a new one. -/
def dictInsert (d : List (String × String)) (k v : String) : List (String × String) :=
  if d.any (fun p => p.1 == k) then
    d.map (fun p => if p.1 == k then (k, v) else p)
  else d ++ [(k, v)]

/-- The repair scan of `Builder.build` (`builder.py:137-143`): every height below
the resume point whose shard file is missing or whose size differs from
`shard_size` is regenerated (the hash returned by `generate_shard` is discarded).
Returns the store as of `pool.wait_completion()` together with the list of
regenerated seeds. -/
def repairPhase (e : Env) (b : Builder) (store_path : String) (cleanup : Bool) :
    List (Nat × String) → Store → List String → Store × List String
  | [], st, rep => (st, rep)
  | (_, seed) :: rest, st, rep =>
    if (match st (Builder._get_shard_path b store_path seed) with
        | some c => c.length == b.shard_size
        | none => false) then
      repairPhase e b store_path cleanup rest st rep
    else
      repairPhase e b store_path cleanup rest
        (Builder.generate_shard e b seed store_path cleanup st).1 (rep ++ [seed])

/-- The main generation loop of `Builder.build` (`builder.py:145-167`): for each
remaining `(shard_num, seed)`, stop when the projected free disk space
`free - shard_size * (active + 1)` would drop below `min_free_size` (recording
`shard_num` as the last height), otherwise run `generate_shard`, record the
returned hash under the seed, fire the progress callback with
`(shard_num + 1, False)` and continue with `last_height = shard_num + 1`.
`freeFn`/`activeFn` give `psutil.disk_usage(store_path).free` and
`pool.active_count()` as observed at height `shard_num`.  Returns the store, the
accumulated dict, the enqueued seeds, the callback calls and `last_height`. -/
def buildLoop (e : Env) (b : Builder) (store_path : String) (cleanup : Bool)
    (freeFn activeFn : Nat → Nat) :
    List (Nat × String) → Store → List (String × String) → List String →
      List (Nat × Bool) → Nat →
      Store × List (String × String) × List String × List (Nat × Bool) × Nat
  | [], st, gen, enq, cbs, lh => (st, gen, enq, cbs, lh)
  | (num, seed) :: rest, st, gen, enq, cbs, _lh =>
    if (freeFn num : Int) - b.shard_size * (activeFn num + 1) < b.min_free_size then
      (st, gen, enq, cbs, num)
    else
      let r := Builder.generate_shard e b seed store_path cleanup st
      buildLoop e b store_path cleanup freeFn activeFn rest r.1
        (dictInsert gen seed r.2) (enq ++ [seed]) (cbs ++ [(num + 1, false)]) (num + 1)

/-- The observable outcome of one `Builder.build` run, including the intermediate
data the theorems below are about: the resume point, the store and regenerated
seeds after the repair pass, the final store, the returned `generated` dict, the
seeds enqueued by the main loop, every `on_generate_shard` call in order, and the
final `last_height`. -/
structure BuildOutcome where
  resume : Nat
  storeAfterRepair : Store
  repaired : List String
  store : Store
  generated : List (String × String)
  enqueued : List String
  callbacks : List (Nat × Bool)
  last_height : Nat

/-- `Builder.build` (`builder.py:119-173`).  Modelled from the spec where it leans
on the missing `dataserv_client.control` module: `control.Thread.ThreadPool`
executes each submitted task and hands its result back (so `add_task` yields the
shard hash recorded in `generated`), tasks complete in submission order, and
`pool.wait_completion()` separates the repair scan from new generation.  Unless
`rebuild`, the resume point comes from `filter_to_resume_point`; with `repair`,
heights below it are scanned first; then the main loop runs from the resume point
and `on_generate_shard(last_height, True)` fires at the end. -/
def Builder.build (e : Env) (b : Builder) (store_path : String) (st : Store)
    (freeFn activeFn : Nat → Nat) (workers : Nat) (cleanup rebuild repair : Bool) :
    BuildOutcome :=
  let enum_seeds := (Builder.build_seeds e b (Builder.target_height b)).enum
  let lh0 := if rebuild then 0
    else Builder.filter_to_resume_point b store_path st enum_seeds
  let rp := if !rebuild && repair then
      repairPhase e b store_path cleanup (enum_seeds.take lh0) st []
    else (st, [])
  let out := buildLoop e b store_path cleanup freeFn activeFn
    (enum_seeds.drop lh0) rp.1 [] [] [] lh0
  { resume := lh0, storeAfterRepair := rp.1, repaired := rp.2,
    store := out.1, generated := out.2.1, enqueued := out.2.2.1,
    callbacks := out.2.2.2.1 ++ [(out.2.2.2.2, true)], last_height := out.2.2.2.2 }

/-- `Builder.audit` (`builder.py:215-237`).  `btc_index` is the injected
blockchain-height oracle (`last_btc_index`); the fetched block hash is not used by
the computation.  `block_size` is the `common.DEFAULT_BLOCK_SIZE` configuration
constant (the `common` module is not among the sources).  With
`block_pos = btc_index % 1000`, the audited block is `seeds[block_pos*block_size :]`
of `build_seeds((block_pos+1)*block_size)`.  Returns `none` for the failure
sentinel (`0` in the source) when some shard in the block is missing or has the
wrong size, otherwise the hash of the concatenated per-shard file hashes. -/
def Builder.audit (e : Env) (b : Builder) (store_path : String) (st : Store)
    (btc_index block_size : Nat) : Option String :=
  let block_pos := btc_index % 1000
  let seeds := Builder.build_seeds e b ((block_pos + 1) * block_size)
  let block := seeds.drop (block_pos * block_size)
  if block.all (fun seed =>
      match st (Builder._get_shard_path b store_path seed) with
      | some c => c.length == b.shard_size
      | none => false) then
    some (Builder.sha256 e (block.foldl
      (fun acc seed =>
        acc ++ e.hashBytes ((st (Builder._get_shard_path b store_path seed)).getD []))
      ""))
  else none

theorem bisectLeftAux_eq (pred : Nat → Bool) (k : Nat) :
    ∀ (fuel lo hi : Nat), lo ≤ k → k ≤ hi → hi - lo ≤ fuel →
      (∀ i, lo ≤ i → i < hi → (pred i = true ↔ i < k)) →
      bisectLeftAux pred fuel lo hi = k := by
  intro fuel
  induction fuel with
  | zero =>
    intro lo hi hlk hkh hf _
    have : k = lo := by omega
    simpa [bisectLeftAux] using this.symm
  | succ fuel ih =>
    intro lo hi hlk hkh hf hpred
    by_cases hlo : lo < hi
    · have hmid1 : lo ≤ (lo + hi) / 2 := by omega
      have hmid2 : (lo + hi) / 2 < hi := by omega
      cases hp : pred ((lo + hi) / 2) with
      | true =>
        have hmk : (lo + hi) / 2 < k := (hpred _ hmid1 hmid2).mp hp
        simp only [bisectLeftAux, hlo, if_true, hp]
        exact ih ((lo + hi) / 2 + 1) hi hmk hkh (by omega)
          (fun i h1 h2 => hpred i (by omega) h2)
      | false =>
        have hkm : k ≤ (lo + hi) / 2 := by
          by_contra hc
          have := (hpred _ hmid1 hmid2).mpr (by omega)
          simp [hp] at this
        simp only [bisectLeftAux, hlo, if_true, hp]
        exact ih lo ((lo + hi) / 2) hlk hkm (by omega)
          (fun i h1 h2 => hpred i h1 (by omega))
    · have : k = lo := by omega
      simpa [bisectLeftAux, hlo] using this.symm

theorem filter_to_resume_point_eq (b : Builder) (store_path : String) (st : Store)
    (seedsL : List String) (k : Nat) (hk : k ≤ seedsL.length)
    (hpres : ∀ i < seedsL.length,
      ((st (Builder._get_shard_path b store_path (seedsL.getD i ""))).isSome = true ↔
        i < k)) :
    Builder.filter_to_resume_point b store_path st seedsL.enum = k := by
  unfold Builder.filter_to_resume_point bisectLeft
  rw [List.enum_map_snd]
  exact bisectLeftAux_eq _ k _ 0 seedsL.length (Nat.zero_le k) hk (by omega)
    (fun i _ h2 => hpres i h2)

/-- Claim C2: when the store's shard presence is a contiguous prefix — the shard at
height `i` is present exactly for `i < k` within `[0, target_height)` — a build with
`rebuild = false` computes `k` as its resume point (found by `filter_to_resume_point`,
the binary search over the seed sequence with presence-at-path as the predicate),
and `k` is exactly the lowest height whose shard file is absent: every height below
it is present and, when `k < target_height`, the shard at height `k` is absent. -/
theorem build_resume_point (e : Env) (b : Builder) (store_path : String) (st : Store)
    (freeFn activeFn : Nat → Nat) (workers : Nat) (cleanup repair : Bool) (k : Nat)
    (hk : k ≤ Builder.target_height b)
    (hpres : ∀ i < Builder.target_height b,
      ((st (Builder._get_shard_path b store_path (Builder.build_seed e b i))).isSome
        = true ↔ i < k)) :
    (Builder.build e b store_path st freeFn activeFn workers cleanup false repair).resume
        = k ∧
    (Builder.build e b store_path st freeFn activeFn workers cleanup false repair).resume
        = Builder.filter_to_resume_point b store_path st
            ((Builder.build_seeds e b (Builder.target_height b)).enum) ∧
    (∀ j < k,
      (st (Builder._get_shard_path b store_path (Builder.build_seed e b j))).isSome
        = true) ∧
    (k < Builder.target_height b →
      (st (Builder._get_shard_path b store_path (Builder.build_seed e b k))).isSome
        = false) := by
  have hres : (Builder.build e b store_path st freeFn activeFn workers cleanup
      false repair).resume =
      Builder.filter_to_resume_point b store_path st
        ((Builder.build_seeds e b (Builder.target_height b)).enum) := rfl
  have heq : Builder.filter_to_resume_point b store_path st
      ((Builder.build_seeds e b (Builder.target_height b)).enum) = k := by
    refine filter_to_resume_point_eq b store_path st _ k ?_ ?_
    · rw [build_seeds_length]; exact hk
    · intro i hi
      rw [build_seeds_length] at hi
      rw [build_seeds_getD e b hi, ← build_seed_eq_chain]
      exact hpres i hi
  refine ⟨hres.trans heq, hres, fun j hj => (hpres j (by omega)).mpr hj, fun hkN => ?_⟩
  have := hpres k hkN
  cases hb : (st (Builder._get_shard_path b store_path
      (Builder.build_seed e b k))).isSome with
  | false => rfl
  | true => exact absurd ((this).mp hb) (by omega)

/-- Witness for C2 at a concrete input: two target heights, shard 0 present,
shard 1 absent, resume point 1. -/
theorem build_resume_point_witness :
    (Builder.build ⟨fun s => s ++ "x", fun _ => "b", fun _ n => List.replicate n 0⟩
        ⟨"a", 1, 2, 0, false⟩ "sp"
        (fun p => if p = "sp/ax" then some [0] else none)
        (fun _ => 0) (fun _ => 0) 1 false false false).resume = 1 ∧
    (Builder.build ⟨fun s => s ++ "x", fun _ => "b", fun _ n => List.replicate n 0⟩
        ⟨"a", 1, 2, 0, false⟩ "sp"
        (fun p => if p = "sp/ax" then some [0] else none)
        (fun _ => 0) (fun _ => 0) 1 false false false).resume =
      Builder.filter_to_resume_point ⟨"a", 1, 2, 0, false⟩ "sp"
        (fun p => if p = "sp/ax" then some [0] else none)
        ((Builder.build_seeds
          ⟨fun s => s ++ "x", fun _ => "b", fun _ n => List.replicate n 0⟩
          ⟨"a", 1, 2, 0, false⟩
          (Builder.target_height ⟨"a", 1, 2, 0, false⟩)).enum) ∧
    (∀ j < 1,
      ((fun p => if p = "sp/ax" then some [0] else none :
          Store) (Builder._get_shard_path ⟨"a", 1, 2, 0, false⟩ "sp"
          (Builder.build_seed
            ⟨fun s => s ++ "x", fun _ => "b", fun _ n => List.replicate n 0⟩
            ⟨"a", 1, 2, 0, false⟩ j))).isSome = true) ∧
    (1 < Builder.target_height ⟨"a", 1, 2, 0, false⟩ →
      ((fun p => if p = "sp/ax" then some [0] else none :
          Store) (Builder._get_shard_path ⟨"a", 1, 2, 0, false⟩ "sp"
          (Builder.build_seed
            ⟨fun s => s ++ "x", fun _ => "b", fun _ n => List.replicate n 0⟩
            ⟨"a", 1, 2, 0, false⟩ 1))).isSome = false) :=
  build_resume_point _ _ "sp" _ _ _ 1 false false 1 (by decide) (by decide)

theorem range_drop (m n : Nat) : (List.range n).drop m = List.range' m (n - m) := by
  apply List.ext_getElem
  · simp
  · intro i h1 h2
    rw [List.getElem_drop, List.getElem_range, List.getElem_range']
    omega

theorem foldl_append_acc (f : String → String) :
    ∀ (l : List String) (acc : String),
      l.foldl (fun a s => a ++ f s) acc = acc ++ String.join (l.map f) := by
  intro l
  induction l with
  | nil =>
    intro acc
    simp [String.join]
  | cons x t ih =>
    intro acc
    have hx : String.join (f x :: t.map f) = f x ++ String.join (t.map f) := by
      apply String.ext
      simp [String.join_eq]
    rw [List.map_cons, hx, List.foldl_cons, ih (acc ++ f x), String.append_assoc]

theorem audit_block (e : Env) (b : Builder) (btc_index block_size : Nat) :
    (Builder.build_seeds e b ((btc_index % 1000 + 1) * block_size)).drop
        (btc_index % 1000 * block_size) =
      (List.range' (btc_index % 1000 * block_size) block_size).map (hashChain e b) := by
  rw [build_seeds_eq_map, ← List.map_drop, range_drop]
  have : (btc_index % 1000 + 1) * block_size - btc_index % 1000 * block_size
      = block_size := by ring_nf; omega
  rw [this]

theorem audit_all_iff (e : Env) (b : Builder) (store_path : String) (st : Store)
    (btc_index block_size : Nat) :
    ((Builder.build_seeds e b ((btc_index % 1000 + 1) * block_size)).drop
        (btc_index % 1000 * block_size)).all (fun seed =>
        match st (Builder._get_shard_path b store_path seed) with
        | some c => c.length == b.shard_size
        | none => false) = true ↔
      ∀ i, btc_index % 1000 * block_size ≤ i →
        i < (btc_index % 1000 + 1) * block_size →
        ∃ c, st (Builder._get_shard_path b store_path (Builder.build_seed e b i))
            = some c ∧ c.length = b.shard_size := by
  have hsplit : (btc_index % 1000 + 1) * block_size
      = btc_index % 1000 * block_size + block_size := by ring
  rw [audit_block, List.all_eq_true]
  constructor
  · intro h i h1 h2
    have hmem : hashChain e b i ∈
        (List.range' (btc_index % 1000 * block_size) block_size).map (hashChain e b) :=
      List.mem_map_of_mem _ (List.mem_range'_1.mpr ⟨h1, by omega⟩)
    have hgood := h _ hmem
    rw [build_seed_eq_chain]
    revert hgood
    cases hc : st (Builder._get_shard_path b store_path (hashChain e b i)) with
    | none => intro hfalse; simp at hfalse
    | some c =>
      intro htrue
      exact ⟨c, rfl, by simpa using htrue⟩
  · intro h seed hmem
    rw [List.mem_map] at hmem
    obtain ⟨i, hi, rfl⟩ := hmem
    rw [List.mem_range'_1] at hi
    obtain ⟨c, hc, hlen⟩ := h i hi.1 (by omega)
    rw [build_seed_eq_chain] at hc
    simp [hc, hlen]

/-- Claim C1: for every address, store state and oracle height in which every shard
of the selected block — heights `[(H % 1000) * blockSize, (H % 1000 + 1) * blockSize)`
— exists with exactly `shard_size` bytes, `audit` returns the hash of the
concatenation, in ascending height order over that range, of the per-shard hashes of
the on-disk contents, hashed once more as a single string. -/
theorem audit_complete_block_proof (e : Env) (b : Builder) (store_path : String)
    (st : Store) (btc_index block_size : Nat)
    (hall : ∀ i, btc_index % 1000 * block_size ≤ i →
      i < (btc_index % 1000 + 1) * block_size →
      ∃ c, st (Builder._get_shard_path b store_path (Builder.build_seed e b i))
          = some c ∧ c.length = b.shard_size) :
    Builder.audit e b store_path st btc_index block_size =
      some (Builder.sha256 e (String.join
        ((List.range' (btc_index % 1000 * block_size) block_size).map (fun i =>
          e.hashBytes
            ((st (Builder._get_shard_path b store_path (Builder.build_seed e b i))).getD
              []))))) := by
  have hcond := (audit_all_iff e b store_path st btc_index block_size).mpr hall
  unfold Builder.audit
  simp only [hcond, if_true]
  refine congrArg _ (congrArg _ ?_)
  rw [foldl_append_acc (fun seed =>
      e.hashBytes ((st (Builder._get_shard_path b store_path seed)).getD []))]
  have hempty : ∀ s : String, "" ++ s = s := by
    intro s
    apply String.ext
    simp
  rw [hempty, audit_block, List.map_map]
  refine congrArg _ (congrArg₂ _ ?_ rfl)
  funext i
  simp [Function.comp, build_seed_eq_chain]

/-- Witness for C1 at a concrete input: block size 1, oracle height 0, the single
selected shard present with the right size. -/
theorem audit_complete_block_proof_witness :
    Builder.audit ⟨fun s => s ++ "x", fun _ => "b", fun _ n => List.replicate n 0⟩
        ⟨"a", 1, 2, 0, false⟩ "sp"
        (fun p => if p = "sp/ax" then some [0] else none) 0 1 =
      some (Builder.sha256 ⟨fun s => s ++ "x", fun _ => "b", fun _ n => List.replicate n 0⟩
        (String.join ((List.range' (0 % 1000 * 1) 1).map (fun i =>
          Env.hashBytes ⟨fun s => s ++ "x", fun _ => "b", fun _ n => List.replicate n 0⟩
            (((fun p => if p = "sp/ax" then some [0] else none : Store)
              (Builder._get_shard_path ⟨"a", 1, 2, 0, false⟩ "sp"
                (Builder.build_seed
                  ⟨fun s => s ++ "x", fun _ => "b", fun _ n => List.replicate n 0⟩
                  ⟨"a", 1, 2, 0, false⟩ i))).getD []))))) :=
  audit_complete_block_proof _ _ "sp" _ 0 1 (fun i h1 h2 => by
    have hi : i = 0 := by omega
    subst hi
    exact ⟨[0], by decide, rfl⟩)

/-- Claim C4: whenever some shard of the selected block is missing or has a size
other than `shard_size`, `audit` returns the failure sentinel (`none`, the source's
`0`) and no proof value; a proof value is returned if and only if every shard of the
block exists with exactly `shard_size` bytes. -/
theorem audit_failure_sentinel (e : Env) (b : Builder) (store_path : String)
    (st : Store) (btc_index block_size : Nat) :
    ((¬ ∀ i, btc_index % 1000 * block_size ≤ i →
        i < (btc_index % 1000 + 1) * block_size →
        ∃ c, st (Builder._get_shard_path b store_path (Builder.build_seed e b i))
            = some c ∧ c.length = b.shard_size) →
      Builder.audit e b store_path st btc_index block_size = none) ∧
    ((∃ p, Builder.audit e b store_path st btc_index block_size = some p) ↔
      ∀ i, btc_index % 1000 * block_size ≤ i →
        i < (btc_index % 1000 + 1) * block_size →
        ∃ c, st (Builder._get_shard_path b store_path (Builder.build_seed e b i))
            = some c ∧ c.length = b.shard_size) := by
  have hiff := audit_all_iff e b store_path st btc_index block_size
  constructor
  · intro hbad
    have hfalse : ((Builder.build_seeds e b ((btc_index % 1000 + 1) * block_size)).drop
        (btc_index % 1000 * block_size)).all (fun seed =>
        match st (Builder._get_shard_path b store_path seed) with
        | some c => c.length == b.shard_size
        | none => false) = false := by
      cases hc : ((Builder.build_seeds e b ((btc_index % 1000 + 1) * block_size)).drop
          (btc_index % 1000 * block_size)).all (fun seed =>
          match st (Builder._get_shard_path b store_path seed) with
          | some c => c.length == b.shard_size
          | none => false) with
      | false => rfl
      | true => exact absurd (hiff.mp hc) hbad
    unfold Builder.audit
    simp only [hfalse, Bool.false_eq_true, if_false]
  · constructor
    · intro ⟨p, hp⟩
      refine hiff.mp ?_
      by_contra hc
      have hfalse : ((Builder.build_seeds e b ((btc_index % 1000 + 1) * block_size)).drop
          (btc_index % 1000 * block_size)).all (fun seed =>
          match st (Builder._get_shard_path b store_path seed) with
          | some c => c.length == b.shard_size
          | none => false) = false := by
        revert hc
        cases ((Builder.build_seeds e b ((btc_index % 1000 + 1) * block_size)).drop
            (btc_index % 1000 * block_size)).all (fun seed =>
            match st (Builder._get_shard_path b store_path seed) with
            | some c => c.length == b.shard_size
            | none => false) with
        | false => intro _; rfl
        | true => intro hc; exact absurd rfl hc
      unfold Builder.audit at hp
      simp only [hfalse, Bool.false_eq_true, if_false] at hp
      exact Option.noConfusion hp
    · intro hall
      exact ⟨_, audit_complete_block_proof e b store_path st btc_index block_size
        (hiff.mp (hiff.mpr hall))⟩

theorem generate_shard_hash (e : Env) (b : Builder) (seed store_path : String)
    (cleanup : Bool) (st : Store) :
    (Builder.generate_shard e b seed store_path cleanup st).2 =
      e.hashBytes (e.randomIO seed b.shard_size) := by
  simp [Builder.generate_shard, setFile]

theorem generate_shard_other (e : Env) (b : Builder) (seed store_path : String)
    (cleanup : Bool) (st : Store) (q : String)
    (hq : Builder._get_shard_path b store_path seed ≠ q) :
    (Builder.generate_shard e b seed store_path cleanup st).1 q = st q := by
  unfold Builder.generate_shard
  cases cleanup with
  | false =>
    simp only [if_false, Bool.false_eq_true, setFile]
    rw [if_neg (fun hc => hq hc.symm)]
  | true =>
    simp only [if_true, delFile, setFile]
    rw [if_neg (fun hc => hq hc.symm), if_neg (fun hc => hq hc.symm)]

theorem generate_shard_written (e : Env) (b : Builder) (seed store_path : String)
    (st : Store) :
    (Builder.generate_shard e b seed store_path false st).1
        (Builder._get_shard_path b store_path seed) =
      some (e.randomIO seed b.shard_size) := by
  simp [Builder.generate_shard, setFile]

theorem dictInsert_keys_mem (d : List (String × String)) (k v s : String) :
    s ∈ (dictInsert d k v).map Prod.fst ↔ s ∈ d.map Prod.fst ∨ s = k := by
  unfold dictInsert
  by_cases hmem : d.any (fun p => p.1 == k) = true
  · rw [if_pos hmem, List.map_map]
    rw [List.any_eq_true] at hmem
    obtain ⟨p, hp, hpk⟩ := hmem
    rw [beq_iff_eq] at hpk
    constructor
    · intro hs
      rw [List.mem_map] at hs
      obtain ⟨q, hq, rfl⟩ := hs
      by_cases hqk : q.1 == k
      · right; simp [Function.comp, hqk]
      · left
        rw [List.mem_map]
        exact ⟨q, hq, by simp [Function.comp, hqk]⟩
    · intro hs
      rw [List.mem_map]
      rcases hs with hs | rfl
      · rw [List.mem_map] at hs
        obtain ⟨q, hq, rfl⟩ := hs
        by_cases hqk : q.1 == k
        · exact ⟨q, hq, by simp [Function.comp, hqk]; exact (beq_iff_eq.mp hqk).symm⟩
        · exact ⟨q, hq, by simp [Function.comp, hqk]⟩
      · exact ⟨p, hp, by simp [Function.comp, hpk]⟩
  · rw [if_neg hmem]
    simp

theorem dictInsert_keys_nodup (d : List (String × String)) (k v : String)
    (hd : (d.map Prod.fst).Nodup) : ((dictInsert d k v).map Prod.fst).Nodup := by
  unfold dictInsert
  by_cases hmem : d.any (fun p => p.1 == k) = true
  · rw [if_pos hmem]
    have : (d.map (fun p => if p.1 == k then (k, v) else p)).map Prod.fst
        = d.map Prod.fst := by
      rw [List.map_map]
      refine List.map_congr_left ?_
      intro p _
      by_cases hpk : p.1 == k
      · simp [Function.comp, hpk]
        exact (beq_iff_eq.mp hpk).symm
      · simp [Function.comp, hpk]
    rw [this]
    exact hd
  · rw [if_neg hmem]
    rw [List.map_append]
    rw [List.nodup_append]
    refine ⟨hd, List.nodup_singleton k, ?_⟩
    intro s hs
    simp only [List.map_cons, List.map_nil, List.mem_singleton]
    intro hsk
    rw [List.mem_map] at hs
    obtain ⟨p, hp, hpk⟩ := hs
    exact hmem (List.any_eq_true.mpr ⟨p, hp, beq_iff_eq.mpr (hpk.trans hsk)⟩)

theorem dictInsert_values (d : List (String × String)) (k v : String)
    (f : String → String) (hd : ∀ p ∈ d, p.2 = f p.1) (hv : v = f k) :
    ∀ p ∈ dictInsert d k v, p.2 = f p.1 := by
  unfold dictInsert
  by_cases hmem : d.any (fun p => p.1 == k) = true
  · rw [if_pos hmem]
    intro p hp
    rw [List.mem_map] at hp
    obtain ⟨q, hq, rfl⟩ := hp
    by_cases hqk : q.1 == k
    · simp [hqk, hv]
    · simp [hqk, hd q hq]
  · rw [if_neg hmem]
    intro p hp
    rw [List.mem_append] at hp
    rcases hp with hp | hp
    · exact hd p hp
    · rw [List.mem_singleton] at hp
      subst hp
      exact hv

theorem buildLoop_dict_inv (e : Env) (b : Builder) (store_path : String)
    (cleanup : Bool) (freeFn activeFn : Nat → Nat) :
    ∀ (l : List (Nat × String)) (st : Store) (gen : List (String × String))
      (enq : List String) (cbs : List (Nat × Bool)) (lh : Nat),
      (gen.map Prod.fst).Nodup →
      (∀ p ∈ gen, p.2 = e.hashBytes (e.randomIO p.1 b.shard_size)) →
      (∀ s, s ∈ gen.map Prod.fst ↔ s ∈ enq) →
      (((buildLoop e b store_path cleanup freeFn activeFn l st gen enq cbs
          lh).2.1.map Prod.fst).Nodup ∧
        (∀ p ∈ (buildLoop e b store_path cleanup freeFn activeFn l st gen enq cbs
          lh).2.1, p.2 = e.hashBytes (e.randomIO p.1 b.shard_size)) ∧
        (∀ s, s ∈ (buildLoop e b store_path cleanup freeFn activeFn l st gen enq cbs
            lh).2.1.map Prod.fst ↔
          s ∈ (buildLoop e b store_path cleanup freeFn activeFn l st gen enq cbs
            lh).2.2.1)) := by
  intro l
  induction l with
  | nil =>
    intro st gen enq cbs lh h1 h2 h3
    exact ⟨h1, h2, h3⟩
  | cons p rest ih =>
    intro st gen enq cbs lh h1 h2 h3
    obtain ⟨num, seed⟩ := p
    by_cases hstop :
        (freeFn num : Int) - b.shard_size * (activeFn num + 1) < b.min_free_size
    · simp only [buildLoop, if_pos hstop]
      exact ⟨h1, h2, h3⟩
    · simp only [buildLoop, if_neg hstop]
      refine ih _ _ _ _ _ (dictInsert_keys_nodup gen seed _ h1) ?_ ?_
      · exact dictInsert_values gen seed _
          (fun s => e.hashBytes (e.randomIO s b.shard_size)) h2
          (generate_shard_hash e b seed store_path cleanup st)
      · intro s
        rw [dictInsert_keys_mem, List.mem_append, List.mem_singleton, h3 s]

/-- Claim C3 as amended: for every completed build run, the returned mapping has
unique keys, maps every recorded seed to the verified SHA-256 content hash of that
shard's file (the hash of the bytes read back after writing), and its keys are
exactly the seeds enqueued by the main generation phase (at or above the resume
point); shards regenerated only by the repair scan are not recorded. -/
theorem build_result_spec (e : Env) (b : Builder) (store_path : String) (st : Store)
    (freeFn activeFn : Nat → Nat) (workers : Nat) (cleanup rebuild repair : Bool) :
    (((Builder.build e b store_path st freeFn activeFn workers cleanup rebuild
        repair).generated.map Prod.fst).Nodup) ∧
    (∀ p ∈ (Builder.build e b store_path st freeFn activeFn workers cleanup rebuild
        repair).generated, p.2 = e.hashBytes (e.randomIO p.1 b.shard_size)) ∧
    (∀ s, s ∈ (Builder.build e b store_path st freeFn activeFn workers cleanup
        rebuild repair).generated.map Prod.fst ↔
      s ∈ (Builder.build e b store_path st freeFn activeFn workers cleanup rebuild
        repair).enqueued) := by
  refine buildLoop_dict_inv e b store_path cleanup freeFn activeFn _ _ [] [] [] _
    ?_ ?_ ?_
  · exact List.nodup_nil
  · intro p hp
    exact absurd hp (List.not_mem_nil p)
  · intro s
    exact Iff.rfl

/-- Counterexample to claim C3 as stated: in a completed run with `repair = true`
on a store whose shard at height 0 exists with the wrong size and whose shard at
height 1 is absent, the shard at height 0 is regenerated during the run (its seed
is in `repaired`), yet the returned mapping has no entry for that seed. -/
theorem build_result_repair_counterexample :
    "ax" ∈ (Builder.build
        ⟨fun s => s ++ "x", fun _ => "b", fun _ n => List.replicate n 0⟩
        ⟨"a", 1, 2, 0, false⟩ "sp"
        (fun p => if p = "sp/ax" then some [] else none)
        (fun _ => 100) (fun _ => 0) 1 false false true).repaired ∧
    "ax" ∉ ((Builder.build
        ⟨fun s => s ++ "x", fun _ => "b", fun _ n => List.replicate n 0⟩
        ⟨"a", 1, 2, 0, false⟩ "sp"
        (fun p => if p = "sp/ax" then some [] else none)
        (fun _ => 100) (fun _ => 0) 1 false false true).generated.map Prod.fst) := by
  refine ⟨by decide, by decide⟩

theorem bool_eq_false {x : Bool} (h : ¬ x = true) : x = false := by
  cases x
  · rfl
  · exact absurd rfl h

theorem shard_ok_iff (st : Store) (p : String) (n : Nat) :
    ((match st p with
      | some c => c.length == n
      | none => false) = true) ↔ ∃ c, st p = some c ∧ c.length = n := by
  cases hc : st p with
  | none => simp
  | some c => simp

theorem bisectLeftAux_le (pred : Nat → Bool) :
    ∀ (fuel lo hi : Nat), lo ≤ hi → bisectLeftAux pred fuel lo hi ≤ hi := by
  intro fuel
  induction fuel with
  | zero => intro lo hi h; simpa [bisectLeftAux] using h
  | succ fuel ih =>
    intro lo hi h
    by_cases hlo : lo < hi
    · cases hp : pred ((lo + hi) / 2) with
      | true =>
        simp only [bisectLeftAux, hlo, if_true, hp]
        exact ih ((lo + hi) / 2 + 1) hi (by omega)
      | false =>
        simp only [bisectLeftAux, hlo, if_true, hp]
        exact Nat.le_trans (ih lo ((lo + hi) / 2) (by omega)) (by omega)
    · simpa [bisectLeftAux, hlo] using h

theorem build_resume_le (e : Env) (b : Builder) (store_path : String) (st : Store)
    (freeFn activeFn : Nat → Nat) (workers : Nat) (cleanup rebuild repair : Bool) :
    (Builder.build e b store_path st freeFn activeFn workers cleanup rebuild
      repair).resume ≤ Builder.target_height b := by
  have hres : (Builder.build e b store_path st freeFn activeFn workers cleanup
      rebuild repair).resume =
      if rebuild then 0
      else Builder.filter_to_resume_point b store_path st
        ((Builder.build_seeds e b (Builder.target_height b)).enum) := rfl
  rw [hres]
  cases rebuild with
  | true => simp
  | false =>
    simp only [if_false, Bool.false_eq_true]
    unfold Builder.filter_to_resume_point bisectLeft
    have := bisectLeftAux_le
      (fun i => (st (Builder._get_shard_path b store_path
        ((((Builder.build_seeds e b (Builder.target_height b)).enum).map
          Prod.snd).getD i ""))).isSome)
      ((((Builder.build_seeds e b (Builder.target_height b)).enum).map
        Prod.snd).length - 0) 0
      ((((Builder.build_seeds e b (Builder.target_height b)).enum).map
        Prod.snd).length) (Nat.zero_le _)
    simpa [List.enum_map_snd, build_seeds_length] using this

theorem enum_build_seeds (e : Env) (b : Builder) (N : Nat) :
    (Builder.build_seeds e b N).enum =
      (List.range N).map (fun i => (i, hashChain e b i)) := by
  rw [build_seeds_eq_map, List.enum_eq_zip_range]
  apply List.ext_getElem
  · simp
  · intro i h1 h2
    rw [List.getElem_zip]
    simp

theorem range_split_at (k n : Nat) (hk : k < n) :
    List.range n = List.range k ++ k :: List.range' (k + 1) (n - k - 1) := by
  rw [List.range_eq_range', List.range_eq_range']
  have h1 : List.range' 0 k ++ List.range' (0 + 1 * k) (n - k) 1 =
      List.range' 0 ((n - k) + k) := List.range'_append 0 k (n - k) 1
  have h3 : 0 + 1 * k = k := by omega
  have h2 : (n - k) + k = n := by omega
  rw [h2, h3] at h1
  rw [← h1]
  congr 1
  have h4 : n - k = (n - k - 1) + 1 := by omega
  rw [h4, List.range'_succ]
  have h5 : n - k - 1 + 1 - 1 = n - k - 1 := by omega
  rw [h5]

theorem repairPhase_append (e : Env) (b : Builder) (sp : String) (cl : Bool)
    (l1 l2 : List (Nat × String)) :
    ∀ (st : Store) (rep : List String),
      repairPhase e b sp cl (l1 ++ l2) st rep =
        repairPhase e b sp cl l2 (repairPhase e b sp cl l1 st rep).1
          (repairPhase e b sp cl l1 st rep).2 := by
  induction l1 with
  | nil => intro st rep; rfl
  | cons p t ih =>
    intro st rep
    obtain ⟨num, seed⟩ := p
    by_cases hok : (match st (Builder._get_shard_path b sp seed) with
        | some c => c.length == b.shard_size
        | none => false) = true
    · simp only [List.cons_append, repairPhase, hok, if_true]
      exact ih _ _
    · simp only [List.cons_append, repairPhase, bool_eq_false hok,
        Bool.false_eq_true, if_false]
      exact ih _ _

theorem repairPhase_store_other (e : Env) (b : Builder) (sp : String) (cl : Bool)
    (q : String) :
    ∀ (l : List (Nat × String)) (st : Store) (rep : List String),
      (∀ p ∈ l, Builder._get_shard_path b sp p.2 ≠ q) →
      (repairPhase e b sp cl l st rep).1 q = st q := by
  intro l
  induction l with
  | nil => intro st rep _; rfl
  | cons p t ih =>
    intro st rep hl
    obtain ⟨num, seed⟩ := p
    have hq : Builder._get_shard_path b sp seed ≠ q :=
      hl (num, seed) (List.mem_cons_self _ _)
    by_cases hok : (match st (Builder._get_shard_path b sp seed) with
        | some c => c.length == b.shard_size
        | none => false) = true
    · simp only [repairPhase, hok, if_true]
      exact ih st rep (fun p hp => hl p (List.mem_cons_of_mem _ hp))
    · simp only [repairPhase, bool_eq_false hok, Bool.false_eq_true, if_false]
      rw [ih _ _ (fun p hp => hl p (List.mem_cons_of_mem _ hp))]
      exact generate_shard_other e b seed sp cl st q hq

theorem repairPhase_rep_mono (e : Env) (b : Builder) (sp : String) (cl : Bool)
    (s : String) :
    ∀ (l : List (Nat × String)) (st : Store) (rep : List String),
      s ∈ rep → s ∈ (repairPhase e b sp cl l st rep).2 := by
  intro l
  induction l with
  | nil => intro st rep h; exact h
  | cons p t ih =>
    intro st rep h
    obtain ⟨num, seed⟩ := p
    by_cases hok : (match st (Builder._get_shard_path b sp seed) with
        | some c => c.length == b.shard_size
        | none => false) = true
    · simp only [repairPhase, hok, if_true]
      exact ih _ _ h
    · simp only [repairPhase, bool_eq_false hok, Bool.false_eq_true, if_false]
      exact ih _ _ (List.mem_append_left _ h)

theorem repairPhase_rep_subset (e : Env) (b : Builder) (sp : String) (cl : Bool)
    (s : String) :
    ∀ (l : List (Nat × String)) (st : Store) (rep : List String),
      s ∈ (repairPhase e b sp cl l st rep).2 → s ∈ rep ∨ s ∈ l.map Prod.snd := by
  intro l
  induction l with
  | nil => intro st rep h; exact Or.inl h
  | cons p t ih =>
    intro st rep h
    obtain ⟨num, seed⟩ := p
    by_cases hok : (match st (Builder._get_shard_path b sp seed) with
        | some c => c.length == b.shard_size
        | none => false) = true
    · simp only [repairPhase, hok, if_true] at h
      rcases ih _ _ h with h1 | h1
      · exact Or.inl h1
      · exact Or.inr (by simp [h1])
    · simp only [repairPhase, bool_eq_false hok, Bool.false_eq_true, if_false] at h
      rcases ih _ _ h with h1 | h1
      · rcases List.mem_append.mp h1 with h2 | h2
        · exact Or.inl h2
        · rw [List.mem_singleton] at h2
          exact Or.inr (by simp [h2])
      · exact Or.inr (by simp [h1])

theorem buildLoop_store_other (e : Env) (b : Builder) (sp : String) (cl : Bool)
    (freeFn activeFn : Nat → Nat) (q : String) :
    ∀ (l : List (Nat × String)) (st : Store) (gen : List (String × String))
      (enq : List String) (cbs : List (Nat × Bool)) (lh : Nat),
      (∀ p ∈ l, Builder._get_shard_path b sp p.2 ≠ q) →
      (buildLoop e b sp cl freeFn activeFn l st gen enq cbs lh).1 q = st q := by
  intro l
  induction l with
  | nil => intro st gen enq cbs lh _; rfl
  | cons p t ih =>
    intro st gen enq cbs lh hl
    obtain ⟨num, seed⟩ := p
    by_cases hstop :
        (freeFn num : Int) - b.shard_size * (activeFn num + 1) < b.min_free_size
    · simp only [buildLoop, if_pos hstop]
    · simp only [buildLoop, if_neg hstop]
      rw [ih _ _ _ _ _ (fun p hp => hl p (List.mem_cons_of_mem _ hp))]
      exact generate_shard_other e b seed sp cl st q
        (hl (num, seed) (List.mem_cons_self _ _))

/-- Claim C5: in a `repair = true` (and `rebuild = false`, `cleanup = false`) run,
for every height `k` below the resume point, the repair scan regenerates the shard
at height `k` if and only if its file is missing or its size differs from
`shard_size`; when regenerated it is restored — in the store handed to the main
generation loop, i.e. before any new shard at or above the resume point is started
— to the canonical `shard_size`-byte content (hence the correct size and content
hash), while shards at heights below the resume point that were intact are left
untouched; and the main loop touches no path below the resume point, so the final
store agrees there with the post-repair store. -/
theorem build_repair_correct (e : Env) (b : Builder) (store_path : String)
    (st : Store) (freeFn activeFn : Nat → Nat) (workers : Nat) (k : Nat)
    (hlen : ∀ s n, (e.randomIO s n).length = n)
    (hpaths : ∀ i, i < Builder.target_height b → ∀ j, j < Builder.target_height b →
      i ≠ j →
      Builder._get_shard_path b store_path (Builder.build_seed e b i) ≠
        Builder._get_shard_path b store_path (Builder.build_seed e b j))
    (hk : k < (Builder.build e b store_path st freeFn activeFn workers false false
      true).resume) :
    (¬ (∃ c, st (Builder._get_shard_path b store_path (Builder.build_seed e b k))
          = some c ∧ c.length = b.shard_size) →
      ((Builder.build e b store_path st freeFn activeFn workers false false
          true).storeAfterRepair
          (Builder._get_shard_path b store_path (Builder.build_seed e b k)) =
        some (e.randomIO (Builder.build_seed e b k) b.shard_size) ∧
      (e.randomIO (Builder.build_seed e b k) b.shard_size).length = b.shard_size ∧
      Builder.build_seed e b k ∈
        (Builder.build e b store_path st freeFn activeFn workers false false
          true).repaired)) ∧
    ((∃ c, st (Builder._get_shard_path b store_path (Builder.build_seed e b k))
          = some c ∧ c.length = b.shard_size) →
      ((Builder.build e b store_path st freeFn activeFn workers false false
          true).storeAfterRepair
          (Builder._get_shard_path b store_path (Builder.build_seed e b k)) =
        st (Builder._get_shard_path b store_path (Builder.build_seed e b k)) ∧
      Builder.build_seed e b k ∉
        (Builder.build e b store_path st freeFn activeFn workers false false
          true).repaired)) ∧
    (Builder.build e b store_path st freeFn activeFn workers false false
        true).store
        (Builder._get_shard_path b store_path (Builder.build_seed e b k)) =
      (Builder.build e b store_path st freeFn activeFn workers false false
        true).storeAfterRepair
        (Builder._get_shard_path b store_path (Builder.build_seed e b k)) := by
  have hrfl : (Builder.build e b store_path st freeFn activeFn workers false false
      true).resume = Builder.filter_to_resume_point b store_path st
      ((Builder.build_seeds e b (Builder.target_height b)).enum) := rfl
  have hrN : Builder.filter_to_resume_point b store_path st
      ((Builder.build_seeds e b (Builder.target_height b)).enum) ≤
      Builder.target_height b := by
    have := build_resume_le e b store_path st freeFn activeFn workers false false true
    rw [hrfl] at this
    exact this
  rw [hrfl] at hk
  simp only [build_seed_eq_chain] at hpaths ⊢
  set N := Builder.target_height b with hN
  set r := Builder.filter_to_resume_point b store_path st
      ((Builder.build_seeds e b N).enum) with hr
  set pathk := Builder._get_shard_path b store_path (hashChain e b k) with hpk
  have hpaths' : ∀ i, i < N → i ≠ k →
      Builder._get_shard_path b store_path (hashChain e b i) ≠ pathk :=
    fun i hi hik => hpaths i hi k (by omega) hik
  set A := (List.range k).map (fun i => (i, hashChain e b i)) with hA
  set Btail := (List.range' (k + 1) (r - k - 1)).map
    (fun i => (i, hashChain e b i)) with hB
  have htake : ((Builder.build_seeds e b N).enum).take r =
      A ++ ((k, hashChain e b k) :: Btail) := by
    rw [enum_build_seeds, ← List.map_take, List.take_range, Nat.min_eq_left hrN,
      range_split_at k r hk, List.map_append, List.map_cons]
  have hAp : ∀ p ∈ A, Builder._get_shard_path b store_path p.2 ≠ pathk := by
    intro p hp
    rw [hA, List.mem_map] at hp
    obtain ⟨i, hi, rfl⟩ := hp
    rw [List.mem_range] at hi
    exact hpaths' i (by omega) (by omega)
  have hBp : ∀ p ∈ Btail, Builder._get_shard_path b store_path p.2 ≠ pathk := by
    intro p hp
    rw [hB, List.mem_map] at hp
    obtain ⟨i, hi, rfl⟩ := hp
    rw [List.mem_range'_1] at hi
    exact hpaths' i (by omega) (by omega)
  have hseeds' : ∀ i, i < N → i ≠ k → hashChain e b i ≠ hashChain e b k := by
    intro i hi hik heq
    exact hpaths' i hi hik (by rw [heq])
  set rpA := repairPhase e b store_path false A st [] with hrpA
  have hstA : rpA.1 pathk = st pathk :=
    repairPhase_store_other e b store_path false pathk A st [] hAp
  have hrepA : hashChain e b k ∉ rpA.2 := by
    intro hmem
    rcases repairPhase_rep_subset e b store_path false _ A st [] hmem with h1 | h1
    · exact absurd h1 (List.not_mem_nil _)
    · rw [hA, List.map_map] at h1
      rw [List.mem_map] at h1
      obtain ⟨i, hi, hchain⟩ := h1
      rw [List.mem_range] at hi
      exact hseeds' i (by omega) (by omega) hchain
  have hsrfl : (Builder.build e b store_path st freeFn activeFn workers false false
      true).storeAfterRepair =
      (repairPhase e b store_path false ((k, hashChain e b k) :: Btail) rpA.1
        rpA.2).1 := by
    show (repairPhase e b store_path false
        (((Builder.build_seeds e b N).enum).take r) st []).1 = _
    rw [htake, repairPhase_append]
  have hreprfl : (Builder.build e b store_path st freeFn activeFn workers false
      false true).repaired =
      (repairPhase e b store_path false ((k, hashChain e b k) :: Btail) rpA.1
        rpA.2).2 := by
    show (repairPhase e b store_path false
        (((Builder.build_seeds e b N).enum).take r) st []).2 = _
    rw [htake, repairPhase_append]
  have hfinal : (Builder.build e b store_path st freeFn activeFn workers false
      false true).store pathk =
      (Builder.build e b store_path st freeFn activeFn workers false false
        true).storeAfterRepair pathk := by
    show (buildLoop e b store_path false freeFn activeFn
        (((Builder.build_seeds e b N).enum).drop r)
        (Builder.build e b store_path st freeFn activeFn workers false false
          true).storeAfterRepair [] [] [] r).1 pathk = _
    apply buildLoop_store_other
    intro p hp
    rw [enum_build_seeds, ← List.map_drop, range_drop, List.mem_map] at hp
    obtain ⟨i, hi, rfl⟩ := hp
    rw [List.mem_range'_1] at hi
    exact hpaths' i (by omega) (by omega)
  refine ⟨?_, ?_, hfinal⟩
  · intro hbad
    have hcond : (match rpA.1 (Builder._get_shard_path b store_path
        (hashChain e b k)) with
        | some c => c.length == b.shard_size
        | none => false) = false := by
      rw [← hpk, hstA]
      apply bool_eq_false
      rw [shard_ok_iff]
      exact hbad
    have hstep : repairPhase e b store_path false
        ((k, hashChain e b k) :: Btail) rpA.1 rpA.2 =
        repairPhase e b store_path false Btail
          (Builder.generate_shard e b (hashChain e b k) store_path false rpA.1).1
          (rpA.2 ++ [hashChain e b k]) := by
      simp only [repairPhase, hcond, Bool.false_eq_true, if_false]
    refine ⟨?_, hlen _ _, ?_⟩
    · rw [hsrfl, hstep,
        repairPhase_store_other e b store_path false pathk Btail _ _ hBp, hpk,
        generate_shard_written]
    · rw [hreprfl, hstep]
      exact repairPhase_rep_mono e b store_path false _ Btail _ _
        (List.mem_append_right _ (List.mem_singleton.mpr rfl))
  · intro hgood
    have hcond : (match rpA.1 (Builder._get_shard_path b store_path
        (hashChain e b k)) with
        | some c => c.length == b.shard_size
        | none => false) = true := by
      rw [← hpk, hstA, shard_ok_iff]
      exact hgood
    have hstep : repairPhase e b store_path false
        ((k, hashChain e b k) :: Btail) rpA.1 rpA.2 =
        repairPhase e b store_path false Btail rpA.1 rpA.2 := by
      simp only [repairPhase, hcond, if_true]
    constructor
    · rw [hsrfl, hstep,
        repairPhase_store_other e b store_path false pathk Btail _ _ hBp, hstA]
    · rw [hreprfl, hstep]
      intro hmem
      rcases repairPhase_rep_subset e b store_path false _ Btail _ _ hmem with
        h1 | h1
      · exact hrepA h1
      · rw [hB, List.map_map] at h1
        rw [List.mem_map] at h1
        obtain ⟨i, hi, hchain⟩ := h1
        rw [List.mem_range'_1] at hi
        exact hseeds' i (by omega) (by omega) hchain

/-- A concrete environment for witnesses: injective string hash, constant byte
hash, zero-filled pseudo-random bytes. -/
def envW : Env := ⟨fun s => s ++ "x", fun _ => "b", fun _ n => List.replicate n 0⟩

/-- A concrete builder for witnesses: shard size 1, capacity 2, target height 2. -/
def bldW : Builder := ⟨"a", 1, 2, 0, false⟩

/-- A concrete store for the repair witness: the shard at height 0 (`sp/ax`) exists
with the wrong size, the shard at height 1 (`sp/axx`) is intact. -/
def stW : Store := fun p =>
  if p = "sp/ax" then some [] else if p = "sp/axx" then some [7] else none

/-- Witness for C5 at a concrete input. -/
theorem build_repair_correct_witness :
    (¬ (∃ c, stW (Builder._get_shard_path bldW "sp" (Builder.build_seed envW bldW 0))
          = some c ∧ c.length = bldW.shard_size) →
      ((Builder.build envW bldW "sp" stW (fun _ => 100) (fun _ => 0) 1 false false
          true).storeAfterRepair
          (Builder._get_shard_path bldW "sp" (Builder.build_seed envW bldW 0)) =
        some (envW.randomIO (Builder.build_seed envW bldW 0) bldW.shard_size) ∧
      (envW.randomIO (Builder.build_seed envW bldW 0) bldW.shard_size).length
          = bldW.shard_size ∧
      Builder.build_seed envW bldW 0 ∈
        (Builder.build envW bldW "sp" stW (fun _ => 100) (fun _ => 0) 1 false false
          true).repaired)) ∧
    ((∃ c, stW (Builder._get_shard_path bldW "sp" (Builder.build_seed envW bldW 0))
          = some c ∧ c.length = bldW.shard_size) →
      ((Builder.build envW bldW "sp" stW (fun _ => 100) (fun _ => 0) 1 false false
          true).storeAfterRepair
          (Builder._get_shard_path bldW "sp" (Builder.build_seed envW bldW 0)) =
        stW (Builder._get_shard_path bldW "sp" (Builder.build_seed envW bldW 0)) ∧
      Builder.build_seed envW bldW 0 ∉
        (Builder.build envW bldW "sp" stW (fun _ => 100) (fun _ => 0) 1 false false
          true).repaired)) ∧
    (Builder.build envW bldW "sp" stW (fun _ => 100) (fun _ => 0) 1 false false
        true).store
        (Builder._get_shard_path bldW "sp" (Builder.build_seed envW bldW 0)) =
      (Builder.build envW bldW "sp" stW (fun _ => 100) (fun _ => 0) 1 false false
        true).storeAfterRepair
        (Builder._get_shard_path bldW "sp" (Builder.build_seed envW bldW 0)) :=
  build_repair_correct envW bldW "sp" stW (fun _ => 100) (fun _ => 0) 1 0
    (fun s n => by simp [envW]) (by decide) (by decide)

theorem build_main_eq (e : Env) (b : Builder) (sp : String) (st : Store)
    (freeFn activeFn : Nat → Nat) (w : Nat) (cl rb rp : Bool) :
    (Builder.build e b sp st freeFn activeFn w cl rb rp).last_height =
      (buildLoop e b sp cl freeFn activeFn
        (((Builder.build_seeds e b (Builder.target_height b)).enum).drop
          ((Builder.build e b sp st freeFn activeFn w cl rb rp).resume))
        ((Builder.build e b sp st freeFn activeFn w cl rb rp).storeAfterRepair)
        [] [] [] ((Builder.build e b sp st freeFn activeFn w cl rb
          rp).resume)).2.2.2.2 ∧
    (Builder.build e b sp st freeFn activeFn w cl rb rp).callbacks =
      (buildLoop e b sp cl freeFn activeFn
        (((Builder.build_seeds e b (Builder.target_height b)).enum).drop
          ((Builder.build e b sp st freeFn activeFn w cl rb rp).resume))
        ((Builder.build e b sp st freeFn activeFn w cl rb rp).storeAfterRepair)
        [] [] [] ((Builder.build e b sp st freeFn activeFn w cl rb
          rp).resume)).2.2.2.1 ++
      [((buildLoop e b sp cl freeFn activeFn
        (((Builder.build_seeds e b (Builder.target_height b)).enum).drop
          ((Builder.build e b sp st freeFn activeFn w cl rb rp).resume))
        ((Builder.build e b sp st freeFn activeFn w cl rb rp).storeAfterRepair)
        [] [] [] ((Builder.build e b sp st freeFn activeFn w cl rb
          rp).resume)).2.2.2.2, true)] ∧
    (Builder.build e b sp st freeFn activeFn w cl rb rp).enqueued =
      (buildLoop e b sp cl freeFn activeFn
        (((Builder.build_seeds e b (Builder.target_height b)).enum).drop
          ((Builder.build e b sp st freeFn activeFn w cl rb rp).resume))
        ((Builder.build e b sp st freeFn activeFn w cl rb rp).storeAfterRepair)
        [] [] [] ((Builder.build e b sp st freeFn activeFn w cl rb
          rp).resume)).2.2.1 :=
  ⟨rfl, rfl, rfl⟩

theorem buildLoop_first_fail (e : Env) (b : Builder) (sp : String) (cl : Bool)
    (freeFn activeFn : Nat → Nat) (f : Nat → String) (h : Nat) :
    ∀ (len r : Nat) (st : Store) (gen : List (String × String)) (enq : List String)
      (cbs : List (Nat × Bool)) (lh : Nat),
      r ≤ h → h < r + len →
      (∀ i, r ≤ i → i < h →
        ¬ ((freeFn i : Int) - b.shard_size * (activeFn i + 1) < b.min_free_size)) →
      ((freeFn h : Int) - b.shard_size * (activeFn h + 1) < b.min_free_size) →
      ((buildLoop e b sp cl freeFn activeFn
          ((List.range' r len).map (fun i => (i, f i))) st gen enq cbs
          lh).2.2.2.2 = h ∧
       (buildLoop e b sp cl freeFn activeFn
          ((List.range' r len).map (fun i => (i, f i))) st gen enq cbs
          lh).2.2.2.1 =
        cbs ++ (List.range' r (h - r)).map (fun i => (i + 1, false)) ∧
       (buildLoop e b sp cl freeFn activeFn
          ((List.range' r len).map (fun i => (i, f i))) st gen enq cbs
          lh).2.2.1 =
        enq ++ (List.range' r (h - r)).map f) := by
  intro len
  induction len with
  | zero =>
    intro r st gen enq cbs lh h1 h2 _ _
    omega
  | succ len ih =>
    intro r st gen enq cbs lh h1 h2 hok hfail
    rw [List.range'_succ, List.map_cons]
    by_cases hrh : r = h
    · subst hrh
      simp only [buildLoop, if_pos hfail]
      refine ⟨?_, ?_, ?_⟩ <;> simp [Nat.sub_self, List.range']
    · have hlt : r < h := by omega
      have hokr := hok r (Nat.le_refl r) hlt
      simp only [buildLoop, if_neg hokr]
      have hstep := ih (r + 1)
        ((Builder.generate_shard e b (f r) sp cl st).1)
        (dictInsert gen (f r) (Builder.generate_shard e b (f r) sp cl st).2)
        (enq ++ [f r]) (cbs ++ [(r + 1, false)]) (r + 1)
        (by omega) (by omega) (fun i hi1 hi2 => hok i (by omega) hi2) hfail
      have h6 : h - (r + 1) = h - r - 1 := by omega
      rw [h6] at hstep
      have hsplit : List.range' r (h - r) =
          r :: List.range' (r + 1) (h - r - 1) := by
        have : h - r = (h - r - 1) + 1 := by omega
        rw [this, List.range'_succ]
        have h5 : h - r - 1 + 1 - 1 = h - r - 1 := by omega
        rw [h5]
      refine ⟨hstep.1, ?_, ?_⟩
      · rw [hstep.2.1, hsplit, List.map_cons]
        simp [List.append_assoc]
      · rw [hstep.2.2, hsplit, List.map_cons]
        simp [List.append_assoc]

/-- Claim C6: when the projected free-disk-space check
`free - shard_size * (active + 1) < min_free_size` first fails at height `h`
(every height from the resume point up to `h` passes and `h`, below the target
height, fails), the build stops enqueuing further work — exactly the seeds of
heights `[resume, h)` are enqueued — records `h` as the final `last_height`, and
the final progress-callback invocation is `(h, True)` with the finished flag (the
model is total: stopping raises no error). -/
theorem build_disk_throttle (e : Env) (b : Builder) (sp : String) (st : Store)
    (freeFn activeFn : Nat → Nat) (workers : Nat) (cleanup rebuild repair : Bool)
    (h : Nat)
    (hrh : (Builder.build e b sp st freeFn activeFn workers cleanup rebuild
      repair).resume ≤ h)
    (hN : h < Builder.target_height b)
    (hok : ∀ i, (Builder.build e b sp st freeFn activeFn workers cleanup rebuild
        repair).resume ≤ i → i < h →
      ¬ ((freeFn i : Int) - b.shard_size * (activeFn i + 1) < b.min_free_size))
    (hfail : (freeFn h : Int) - b.shard_size * (activeFn h + 1) < b.min_free_size) :
    (Builder.build e b sp st freeFn activeFn workers cleanup rebuild
      repair).last_height = h ∧
    (Builder.build e b sp st freeFn activeFn workers cleanup rebuild
      repair).callbacks =
      (List.range' ((Builder.build e b sp st freeFn activeFn workers cleanup rebuild
          repair).resume)
        (h - (Builder.build e b sp st freeFn activeFn workers cleanup rebuild
          repair).resume)).map (fun i => (i + 1, false)) ++ [(h, true)] ∧
    (Builder.build e b sp st freeFn activeFn workers cleanup rebuild
      repair).callbacks.getLast? = some (h, true) ∧
    (Builder.build e b sp st freeFn activeFn workers cleanup rebuild
      repair).enqueued =
      (List.range' ((Builder.build e b sp st freeFn activeFn workers cleanup rebuild
          repair).resume)
        (h - (Builder.build e b sp st freeFn activeFn workers cleanup rebuild
          repair).resume)).map (fun i => Builder.build_seed e b i) := by
  obtain ⟨hlast, hcbs, henq⟩ :=
    build_main_eq e b sp st freeFn activeFn workers cleanup rebuild repair
  have hdrop : ((Builder.build_seeds e b (Builder.target_height b)).enum).drop
      ((Builder.build e b sp st freeFn activeFn workers cleanup rebuild
        repair).resume) =
      (List.range' ((Builder.build e b sp st freeFn activeFn workers cleanup rebuild
          repair).resume)
        (Builder.target_height b -
          (Builder.build e b sp st freeFn activeFn workers cleanup rebuild
            repair).resume)).map (fun i => (i, hashChain e b i)) := by
    rw [enum_build_seeds, ← List.map_drop, range_drop]
  rw [hdrop] at hlast hcbs henq
  have hloop := buildLoop_first_fail e b sp cleanup freeFn activeFn (hashChain e b) h
    (Builder.target_height b -
      (Builder.build e b sp st freeFn activeFn workers cleanup rebuild
        repair).resume)
    ((Builder.build e b sp st freeFn activeFn workers cleanup rebuild repair).resume)
    ((Builder.build e b sp st freeFn activeFn workers cleanup rebuild
      repair).storeAfterRepair) [] [] []
    ((Builder.build e b sp st freeFn activeFn workers cleanup rebuild repair).resume)
    hrh (by omega) hok hfail
  have hcbs2 : (Builder.build e b sp st freeFn activeFn workers cleanup rebuild
      repair).callbacks =
      (List.range' ((Builder.build e b sp st freeFn activeFn workers cleanup rebuild
          repair).resume)
        (h - (Builder.build e b sp st freeFn activeFn workers cleanup rebuild
          repair).resume)).map (fun i => (i + 1, false)) ++ [(h, true)] := by
    rw [hcbs, hloop.2.1, hloop.1]
    simp
  refine ⟨?_, hcbs2, ?_, ?_⟩
  · rw [hlast]
    exact hloop.1
  · rw [hcbs2]
    exact List.getLast?_concat _
  · rw [henq, hloop.2.2]
    simp only [List.nil_append]
    exact List.map_congr_left (fun i _ => (build_seed_eq_chain e b i).symm)

/-- Witness for C6 at a concrete input: empty store, resume point 0, the free-space
check passes at height 0 and fails at height 1. -/
theorem build_disk_throttle_witness :
    (Builder.build envW ⟨"a", 1, 2, 5, false⟩ "sp" (fun _ => none)
      (fun i => if i = 0 then 100 else 0) (fun _ => 0) 1 false false
      false).last_height = 1 ∧
    (Builder.build envW ⟨"a", 1, 2, 5, false⟩ "sp" (fun _ => none)
      (fun i => if i = 0 then 100 else 0) (fun _ => 0) 1 false false
      false).callbacks =
      (List.range' ((Builder.build envW ⟨"a", 1, 2, 5, false⟩ "sp" (fun _ => none)
          (fun i => if i = 0 then 100 else 0) (fun _ => 0) 1 false false
          false).resume)
        (1 - (Builder.build envW ⟨"a", 1, 2, 5, false⟩ "sp" (fun _ => none)
          (fun i => if i = 0 then 100 else 0) (fun _ => 0) 1 false false
          false).resume)).map (fun i => (i + 1, false)) ++ [(1, true)] ∧
    (Builder.build envW ⟨"a", 1, 2, 5, false⟩ "sp" (fun _ => none)
      (fun i => if i = 0 then 100 else 0) (fun _ => 0) 1 false false
      false).callbacks.getLast? = some (1, true) ∧
    (Builder.build envW ⟨"a", 1, 2, 5, false⟩ "sp" (fun _ => none)
      (fun i => if i = 0 then 100 else 0) (fun _ => 0) 1 false false
      false).enqueued =
      (List.range' ((Builder.build envW ⟨"a", 1, 2, 5, false⟩ "sp" (fun _ => none)
          (fun i => if i = 0 then 100 else 0) (fun _ => 0) 1 false false
          false).resume)
        (1 - (Builder.build envW ⟨"a", 1, 2, 5, false⟩ "sp" (fun _ => none)
          (fun i => if i = 0 then 100 else 0) (fun _ => 0) 1 false false
          false).resume)).map
        (fun i => Builder.build_seed envW ⟨"a", 1, 2, 5, false⟩ i) :=
  build_disk_throttle envW ⟨"a", 1, 2, 5, false⟩ "sp" (fun _ => none)
    (fun i => if i = 0 then 100 else 0) (fun _ => 0) 1 false false false 1
    (by decide) (by decide)
    (fun i h1 h2 => by
      have hi : i = 0 := by omega
      subst hi
      decide)
    (by decide)
